import Mathlib

/-!
Shallow embedding of the rule-matching and file-placement engine of
obsidian-smart-file-sorter (src/types.ts, src/main.ts: class FileSorter),
together with theorems settling the frozen claims about it.

JavaScript strings become Lean `String`, JS `undefined`/absent optionals
become `Option`, JS truthiness of strings is made explicit, and the host
regular-expression engine (whose behaviour the core only consumes) is a
parameter recording pattern validity and test results.
-/

namespace SmartFileSorter

/-- src/types.ts `matchType: 'equals' | 'contains' | 'startsWith' | 'endsWith' | 'regex'`. -/
inductive MatchType where
  | equals
  | contains
  | startsWith
  | endsWith
  | regex
deriving DecidableEq, Repr

/-- src/types.ts `SortingRule`. -/
structure SortingRule where
  id : String
  name : String
  enabled : Bool
  destinationFolder : String
  createSubfolders : Bool
  subfolderProperty : Option String
  propertyName : String
  propertyValue : String
  matchType : MatchType
  caseSensitive : Bool
  useTags : Bool
  tagValue : Option String
deriving DecidableEq, Repr

/-- A frontmatter property value as the matcher distinguishes them:
a string, an array of strings, or JS `null`. A key absent from the
frontmatter map models JS `undefined`. -/
inductive PropValue where
  | vstr (s : String)
  | vlist (l : List String)
  | vnull
deriving DecidableEq, Repr

/-- The matchable surface of the host `CachedMetadata`: the frontmatter
property map (when parsed) and the inline tag list (when present). -/
structure CachedMetadata where
  frontmatter : Option (List (String × PropValue))
  tags : Option (List String)
deriving DecidableEq, Repr

/-- The host regular-expression engine, consumed but not implemented by the
core: `valid p` records whether `new RegExp(p, ...)` succeeds, and
`test p cs input` the result of `.test(input)` for pattern `p` compiled
case-sensitively iff `cs`. -/
structure RegexEngine where
  valid : String → Bool
  test : String → Bool → String → Bool

/-!
A small string layer defined by structural recursion over the character
list, so that every definition evaluates by kernel reduction. Each function
mirrors the corresponding JavaScript string method.
-/

/-- Split a character list at every occurrence of `sep` (JS `s.split(sep)`
semantics: `n` separators yield `n + 1` pieces). -/
def charSplit (sep : Char) : List Char → List (List Char)
  | [] => [[]]
  | c :: cs =>
    if c = sep then [] :: charSplit sep cs
    else
      match charSplit sep cs with
      | [] => [[c]]
      | s :: ss => (c :: s) :: ss

/-- Join character lists with a separator. -/
def joinWith (sep : List Char) : List (List Char) → List Char
  | [] => []
  | [s] => s
  | s :: ss => s ++ sep ++ joinWith sep ss

/-- JS `s.split(sep)` for a one-character separator. -/
def jsSplitChar (sep : Char) (s : String) : List String :=
  (charSplit sep s.data).map String.mk

/-- JS `s.toLowerCase()`. -/
def lowerStr (s : String) : String := String.mk (s.data.map Char.toLower)

/-- JS `s.startsWith(p)`. -/
def jsStartsWith (s p : String) : Bool := p.data.isPrefixOf s.data

/-- JS `s.endsWith(p)`. -/
def jsEndsWith (s p : String) : Bool := p.data.reverse.isPrefixOf s.data.reverse

/-- `sub` occurs as a contiguous run inside the list. -/
def infixOf (sub : List Char) : List Char → Bool
  | [] => sub.isEmpty
  | c :: cs => sub.isPrefixOf (c :: cs) || infixOf sub cs

/-- JS `s.trim()`. -/
def jsTrim (s : String) : String :=
  String.mk (((s.data.dropWhile Char.isWhitespace).reverse.dropWhile Char.isWhitespace).reverse)

/-- JS `s.replace(/^#/, '')`: strip at most one leading `#`. -/
def stripHash (s : String) : String :=
  if jsStartsWith s "#" then String.mk (s.data.drop 1) else s

/-- JS `s.includes(sub)`: substring containment. -/
def strIncludes (s sub : String) : Bool :=
  infixOf sub.data s.data

/-- JS truthiness of a string: nonempty. -/
def strTruthy (s : String) : Bool := s != ""

/-- JS truthiness of an optional string field. -/
def optStrTruthy : Option String → Bool
  | some s => strTruthy s
  | none => false

/-- JS truthiness of a frontmatter property value. -/
def propTruthy : PropValue → Bool
  | PropValue.vstr s => strTruthy s
  | PropValue.vlist _ => true
  | PropValue.vnull => false

/-- JS `String(v)` on a frontmatter property value (arrays stringify
comma-joined). -/
def propToStr : PropValue → String
  | PropValue.vstr s => s
  | PropValue.vlist l => String.mk (joinWith [','] (l.map String.data))
  | PropValue.vnull => "null"

/-- `[...new Set(tags)]`: deduplicate keeping the first occurrence. -/
def dedupeKeepFirst : List String → List String → List String
  | _, [] => []
  | seen, t :: ts =>
    if t ∈ seen then dedupeKeepFirst seen ts
    else t :: dedupeKeepFirst (t :: seen) ts

/-- src/main.ts `FileSorter.getAllTags`: frontmatter tags (array, or
comma-separated string split and trimmed) plus inline tags, deduplicated. -/
def getAllTags (cache : CachedMetadata) : List String :=
  let frontmatterTags : List String :=
    match cache.frontmatter with
    | some fm =>
      match fm.lookup "tags" with
      | some (PropValue.vlist l) => l
      | some (PropValue.vstr s) =>
        if s == "" then [] else (jsSplitChar ',' s).map (fun t => jsTrim t)
      | some PropValue.vnull => []
      | none => []
    | none => []
  let inlineTags : List String :=
    match cache.tags with
    | some ts => ts
    | none => []
  dedupeKeepFirst [] (frontmatterTags ++ inlineTags)

/-- src/main.ts `FileSorter.matchesTags`. -/
def matchesTags (re : RegexEngine) (cache : CachedMetadata) (rule : SortingRule) : Bool :=
  let fileTags := getAllTags cache
  if fileTags.isEmpty then false
  else
    let tagValueRaw := rule.tagValue.getD ""
    let tagToMatch := stripHash (lowerStr tagValueRaw)
    fileTags.any fun tag =>
      let cleanTag := stripHash (lowerStr tag)
      match rule.matchType with
      | MatchType.equals =>
        if rule.caseSensitive then stripHash tag == stripHash tagValueRaw
        else cleanTag == tagToMatch
      | MatchType.contains => strIncludes cleanTag tagToMatch
      | MatchType.startsWith => jsStartsWith cleanTag tagToMatch
      | MatchType.endsWith => jsEndsWith cleanTag tagToMatch
      | MatchType.regex =>
        if re.valid tagValueRaw then re.test tagValueRaw rule.caseSensitive tag
        else false

/-- src/main.ts `FileSorter.matchesProperty`. -/
def matchesProperty (re : RegexEngine) (cache : CachedMetadata) (rule : SortingRule) : Bool :=
  match cache.frontmatter with
  | none => false
  | some fm =>
    match fm.lookup rule.propertyName with
    | none => false
    | some PropValue.vnull => false
    | some pv =>
      let propValueStr := propToStr pv
      let ruleValueStr := rule.propertyValue
      match rule.matchType with
      | MatchType.equals =>
        if rule.caseSensitive then propValueStr == ruleValueStr
        else lowerStr propValueStr == lowerStr ruleValueStr
      | MatchType.contains =>
        if rule.caseSensitive then strIncludes propValueStr ruleValueStr
        else strIncludes (lowerStr propValueStr) (lowerStr ruleValueStr)
      | MatchType.startsWith =>
        if rule.caseSensitive then jsStartsWith propValueStr ruleValueStr
        else jsStartsWith (lowerStr propValueStr) (lowerStr ruleValueStr)
      | MatchType.endsWith =>
        if rule.caseSensitive then jsEndsWith propValueStr ruleValueStr
        else jsEndsWith (lowerStr propValueStr) (lowerStr ruleValueStr)
      | MatchType.regex =>
        if re.valid ruleValueStr then re.test ruleValueStr rule.caseSensitive propValueStr
        else false

/-- src/main.ts `FileSorter.fileMatchesRule`, with the host metadata-cache
lookup result passed in (`none` models a file without cached metadata). -/
def fileMatchesRule (re : RegexEngine) (cache : Option CachedMetadata) (rule : SortingRule) : Bool :=
  if !rule.enabled then false
  else
    match cache with
    | none => false
    | some c =>
      if rule.useTags && optStrTruthy rule.tagValue then matchesTags re c rule
      else matchesProperty re c rule

/-- src/main.ts `FileSorter.findMatchingRule`: first rule in order that
matches. -/
def findMatchingRule (re : RegexEngine) (cache : Option CachedMetadata)
    (rules : List SortingRule) : Option SortingRule :=
  rules.find? (fun rule => fileMatchesRule re cache rule)

/-- The host file handle: path, basename, and an identity distinguishing
distinct store objects (JS reference identity). -/
structure TFile where
  path : String
  name : String
  id : Nat
deriving DecidableEq, Repr

/-- Kind of an entity in the store. -/
inductive EntryKind where
  | file
  | folder
deriving DecidableEq, Repr

/-- An entity of the store: its path, kind, and identity. -/
structure VaultEntry where
  path : String
  kind : EntryKind
  id : Nat
deriving DecidableEq, Repr

/-- The document store: its entities plus a fresh-identity counter for
newly created folders. -/
structure Vault where
  entries : List VaultEntry
  nextId : Nat
deriving DecidableEq, Repr

/-- The host collaborators the sorter consumes: per-file metadata lookup,
the regex engine, and the failure behaviour of the rename and
folder-creation primitives (true = the primitive raises). -/
structure Env where
  metadata : Nat → Option CachedMetadata
  regex : RegexEngine
  renameFails : Nat → String → Bool
  createFolderFails : String → Bool

/-- Modelled from the spec: the host path normaliser `normalizePath`, which
lives in the host library and not in this repository (spec §4.2:
"normalized (collapse redundant separators, strip trailing separator)").
Splitting on `/` and dropping empty segments collapses redundant separators
and strips leading and trailing ones. -/
def normalizePath (p : String) : String :=
  String.mk (joinWith ['/'] ((charSplit '/' p.data).filter (fun seg => seg != [])))

/-- The segment-prefixes of a normalized path, shortest first. -/
def pathPrefixes (p : String) : List String :=
  let segs := (charSplit '/' p.data).filter (fun seg => seg != [])
  (List.range segs.length).map (fun i => String.mk (joinWith ['/'] (segs.take (i + 1))))

/-- Modelled from the spec: the storage collaborator's directory-creation
primitive, which lives in the host library and not in this repository
(spec §6: "Directory creation primitive: given a path, create a container
and any missing ancestors"). -/
def createFolder (v : Vault) (path : String) : Vault :=
  (pathPrefixes path).foldl
    (fun acc p =>
      if (acc.entries.find? (fun e => e.path == p)).isSome then acc
      else { entries := acc.entries ++ [⟨p, EntryKind.folder, acc.nextId⟩],
             nextId := acc.nextId + 1 })
    v

/-- src/main.ts `FileSorter.ensureFolderExists`: no-op on the root or an
existing folder, creates a missing folder (the primitive may raise), raises
on a wrong-kind occupant. An `Except.error` models the thrown error. -/
def ensureFolderExists (env : Env) (v : Vault) (folderPath : String) : Except Unit Vault :=
  let normalizedPath := normalizePath folderPath
  if normalizedPath == "" || normalizedPath == "/" then Except.ok v
  else
    match v.entries.find? (fun e => e.path == normalizedPath) with
    | none =>
      if env.createFolderFails normalizedPath then Except.error ()
      else Except.ok (createFolder v normalizedPath)
    | some f =>
      match f.kind with
      | EntryKind.folder => Except.ok v
      | EntryKind.file => Except.error ()

/-- src/main.ts `FileSorter.moveFileByRule`, lines computing
`destinationPath`: the base destination folder, extended by the stringified
subfolder property when configured and truthy, normalized. -/
def resolveDestination (env : Env) (file : TFile) (rule : SortingRule) : String :=
  let destinationPath := rule.destinationFolder
  let destinationPath :=
    if rule.createSubfolders && optStrTruthy rule.subfolderProperty then
      match env.metadata file.id with
      | some cache =>
        match cache.frontmatter with
        | some fm =>
          match fm.lookup (rule.subfolderProperty.getD "") with
          | some subfolderValue =>
            if propTruthy subfolderValue then
              normalizePath (destinationPath ++ "/" ++ propToStr subfolderValue)
            else destinationPath
          | none => destinationPath
        | none => destinationPath
      | none => destinationPath
    else destinationPath
  normalizePath destinationPath

/-- The destination file path `moveFileByRule` computes:
`normalizePath(destinationPath + "/" + file.name)`. -/
def newPathOf (env : Env) (file : TFile) (rule : SortingRule) : String :=
  normalizePath (resolveDestination env file rule ++ "/" ++ file.name)

/-- The four distinguishable outcomes of `moveFileByRule` (the source
returns a boolean but signals each branch distinctly via logs/notices;
only `moved` maps to `true`). -/
inductive MoveOutcome where
  | moved
  | alreadyInPlace
  | conflict
  | failed
deriving DecidableEq, Repr

/-- The rename primitive's effect on the store: the entry with the moved
file's identity takes the new path. -/
def renameInVault (v : Vault) (fileId : Nat) (newPath : String) : Vault :=
  { v with entries := v.entries.map (fun e => if e.id == fileId then { e with path := newPath } else e) }

/-- src/main.ts `FileSorter.moveFileByRule`: compute the destination,
ensure the folder exists, detect no-op and conflict, invoke the rename
primitive. Every raised error is caught inside this function (the whole
body sits in a try/catch returning `false`), hence the `failed` outcomes. -/
def moveFileByRule (env : Env) (v : Vault) (file : TFile) (rule : SortingRule) :
    MoveOutcome × Vault :=
  let destinationPath := resolveDestination env file rule
  match ensureFolderExists env v destinationPath with
  | Except.error _ => (MoveOutcome.failed, v)
  | Except.ok v1 =>
    let newPath := newPathOf env file rule
    if file.path == newPath then (MoveOutcome.alreadyInPlace, v1)
    else
      match v1.entries.find? (fun e => e.path == newPath) with
      | some existingFile =>
        if existingFile.id != file.id then (MoveOutcome.conflict, v1)
        else if env.renameFails file.id newPath then (MoveOutcome.failed, v1)
        else (MoveOutcome.moved, renameInVault v1 file.id newPath)
      | none =>
        if env.renameFails file.id newPath then (MoveOutcome.failed, v1)
        else (MoveOutcome.moved, renameInVault v1 file.id newPath)

/-- src/main.ts `FileSorter.isFileInExcludedFolder`. -/
def isFileInExcludedFolder (file : TFile) (excludedFolders : List String) : Bool :=
  if excludedFolders.isEmpty then false
  else
    excludedFolders.any fun excludedFolder =>
      let normalizedExcluded := normalizePath excludedFolder
      jsStartsWith file.path (normalizedExcluded ++ "/") || file.path == normalizedExcluded

/-- The `{moved, skipped, errors}` aggregate of a batch call. -/
structure BatchResult where
  moved : Nat
  skipped : Nat
  errors : Nat
deriving DecidableEq, Repr

/-- The per-file loop of src/main.ts `FileSorter.sortAllFiles`, carrying
the store, the current index, and producing besides the counters the list
of `onProgress` invocations `(current, total)` in order. An excluded file
hits `continue`, which skips the `onProgress` call at the loop's end. The
`catch { errors++ }` around `moveFileByRule` is mirrored by the absence of
any error-raising path out of `moveFileByRule`. -/
def sortAllFilesLoop (env : Env) (enabledRules : List SortingRule)
    (excludedFolders : List String) (total : Nat) :
    Vault → Nat → List TFile → BatchResult × Vault × List (Nat × Nat)
  | v, _, [] => (⟨0, 0, 0⟩, v, [])
  | v, i, file :: fs =>
    if isFileInExcludedFolder file excludedFolders then
      let rest := sortAllFilesLoop env enabledRules excludedFolders total v (i + 1) fs
      (⟨rest.1.moved, rest.1.skipped + 1, rest.1.errors⟩, rest.2.1, rest.2.2)
    else
      match findMatchingRule env.regex (env.metadata file.id) enabledRules with
      | none =>
        let rest := sortAllFilesLoop env enabledRules excludedFolders total v (i + 1) fs
        (⟨rest.1.moved, rest.1.skipped + 1, rest.1.errors⟩, rest.2.1, (i + 1, total) :: rest.2.2)
      | some matchingRule =>
        let mv := moveFileByRule env v file matchingRule
        let rest := sortAllFilesLoop env enabledRules excludedFolders total mv.2 (i + 1) fs
        (if mv.1 = MoveOutcome.moved then ⟨rest.1.moved + 1, rest.1.skipped, rest.1.errors⟩
         else ⟨rest.1.moved, rest.1.skipped + 1, rest.1.errors⟩,
         rest.2.1, (i + 1, total) :: rest.2.2)

/-- src/main.ts `FileSorter.sortAllFiles`: with no enabled rule return the
zero aggregate at once; otherwise run the loop over the given document
collection. Returns the aggregate, the final store, and the `onProgress`
invocation list. -/
def sortAllFiles (env : Env) (v : Vault) (files : List TFile)
    (rules : List SortingRule) (excludedFolders : List String) :
    BatchResult × Vault × List (Nat × Nat) :=
  let enabledRules := rules.filter (fun r => r.enabled)
  if enabledRules.isEmpty then (⟨0, 0, 0⟩, v, [])
  else sortAllFilesLoop env enabledRules excludedFolders files.length v 0 files

/-- A child of a store folder: a file (with its extension) or a subfolder
with its own children. -/
inductive TAbstract where
  | afile (f : TFile) (extension : String)
  | afolder (children : List TAbstract)
deriving Repr

/-- src/main.ts `FileSorter.sortFolder`, as a loop over a folder's child
list: markdown files are matched against the enabled-rule subset and
moved; with `recursive` set, subfolders are recursed into (the source
passes the unfiltered `rules` down and re-filters, which yields the same
enabled subset) and their aggregates summed. -/
def sortFolderLoop (env : Env) (recursive : Bool) (rules : List SortingRule) :
    Vault → List TAbstract → BatchResult × Vault
  | v, [] => (⟨0, 0, 0⟩, v)
  | v, TAbstract.afile child extension :: cs =>
    if extension == "md" then
      match findMatchingRule env.regex (env.metadata child.id) (rules.filter (fun r => r.enabled)) with
      | none =>
        let rest := sortFolderLoop env recursive rules v cs
        (⟨rest.1.moved, rest.1.skipped + 1, rest.1.errors⟩, rest.2)
      | some matchingRule =>
        let mv := moveFileByRule env v child matchingRule
        let rest := sortFolderLoop env recursive rules mv.2 cs
        (if mv.1 = MoveOutcome.moved then ⟨rest.1.moved + 1, rest.1.skipped, rest.1.errors⟩
         else ⟨rest.1.moved, rest.1.skipped + 1, rest.1.errors⟩, rest.2)
    else sortFolderLoop env recursive rules v cs
  | v, TAbstract.afolder grandchildren :: cs =>
    if recursive then
      let sub := sortFolderLoop env recursive rules v grandchildren
      let rest := sortFolderLoop env recursive rules sub.2 cs
      (⟨sub.1.moved + rest.1.moved, sub.1.skipped + rest.1.skipped, sub.1.errors + rest.1.errors⟩,
       rest.2)
    else sortFolderLoop env recursive rules v cs

/-- src/main.ts `FileSorter.sortFolder` applied to a folder's children. -/
def sortFolder (env : Env) (v : Vault) (children : List TAbstract)
    (rules : List SortingRule) (recursive : Bool) : BatchResult × Vault :=
  sortFolderLoop env recursive rules v children

/-- The number of documents a `sortFolder` call considers: markdown-file
children, plus, when recursive, those of subfolders. -/
def countMdFiles (recursive : Bool) : List TAbstract → Nat
  | [] => 0
  | TAbstract.afile _ extension :: cs =>
    (if extension == "md" then 1 else 0) + countMdFiles recursive cs
  | TAbstract.afolder grandchildren :: cs =>
    (if recursive then countMdFiles recursive grandchildren else 0) + countMdFiles recursive cs

/-- The comparison the code performs for tag rules with a substring match
type: both sides lowercased, then marker-stripped (stated here to compare
with the case-sensitivity the spec describes). -/
def foldedTagCompare (mt : MatchType) (tag tagValue : String) : Bool :=
  match mt with
  | MatchType.contains => strIncludes (stripHash (lowerStr tag)) (stripHash (lowerStr tagValue))
  | MatchType.startsWith => jsStartsWith (stripHash (lowerStr tag)) (stripHash (lowerStr tagValue))
  | MatchType.endsWith => jsEndsWith (stripHash (lowerStr tag)) (stripHash (lowerStr tagValue))
  | _ => false

/-- The pattern a regex rule compiles, following the branch structure of
`fileMatchesRule`: the rule's `tagValue` on the tag path (`useTags` with a
truthy `tagValue`, handled by `matchesTags`), its `propertyValue` on the
property path (handled by `matchesProperty`). -/
def rulePattern (rule : SortingRule) : String :=
  if rule.useTags && optStrTruthy rule.tagValue then rule.tagValue.getD ""
  else rule.propertyValue

/-!
Concrete instances used to exercise the definitions: regex engines, small
rules, metadata snapshots, files and stores.
-/

/-- An engine on which every pattern is invalid (e.g. the rule value is a
malformed pattern like `"("`). -/
def engNone : RegexEngine := { valid := fun _ => false, test := fun _ _ _ => false }

/-- An engine on which exactly the malformed pattern `"("` is invalid —
mirroring `new RegExp`, which accepts `""` but throws on `"("`. -/
def engParen : RegexEngine :=
  { valid := fun p => p != "(", test := fun _ _ _ => false }

/-- An enabled property rule: `topic equals "x"`, case-sensitive,
destination `Done`. -/
def ruleBase : SortingRule :=
  { id := "r1", name := "base rule", enabled := true, destinationFolder := "Done",
    createSubfolders := false, subfolderProperty := none,
    propertyName := "topic", propertyValue := "x", matchType := MatchType.equals,
    caseSensitive := true, useTags := false, tagValue := none }

/-- `ruleBase` with `enabled := false`. -/
def ruleDisabled : SortingRule := { ruleBase with enabled := false }

/-- A rule with `useTags := true` but `tagValue` unset. -/
def ruleTagsNoValue : SortingRule := { ruleBase with useTags := true }

/-- A tag rule: `contains "Project"`, case-sensitive. -/
def ruleTagContains : SortingRule :=
  { ruleBase with
    useTags := true
    tagValue := some "Project"
    matchType := MatchType.contains }

/-- A regex rule whose pattern `"("` is malformed. -/
def ruleBadRegex : SortingRule :=
  { ruleBase with matchType := MatchType.regex, propertyValue := "(" }

/-- A TAG regex rule whose operative pattern — the `tagValue` `"("` — is
malformed, while its `propertyValue` keeps the settings UI's default `""`,
which is a valid pattern. -/
def ruleBadTagRegex : SortingRule :=
  { ruleBase with
    useTags := true
    tagValue := some "("
    matchType := MatchType.regex
    propertyValue := "" }

/-- Snapshot with property `topic = "x"` and inline tag `#t`. -/
def cacheA : CachedMetadata :=
  { frontmatter := some [("topic", PropValue.vstr "x")], tags := some ["#t"] }

/-- Snapshot with property `topic = "y"` and the same tag set as `cacheA`. -/
def cacheB : CachedMetadata :=
  { frontmatter := some [("topic", PropValue.vstr "y")], tags := some ["#t"] }

/-- Snapshot with only the inline tag `#project`. -/
def cacheTagProject : CachedMetadata := { frontmatter := none, tags := some ["#project"] }

/-- A markdown file at `Notes/a.md`. -/
def fileA : TFile := { path := "Notes/a.md", name := "a.md", id := 2 }

/-- A file inside the `Archive` folder. -/
def fileInArchive : TFile := { path := "Archive/note.md", name := "note.md", id := 3 }

/-- A file whose folder merely begins with `Archive`. -/
def fileInArchive2 : TFile := { path := "Archive2/note.md", name := "note.md", id := 4 }

/-- A store holding the folder `Done` and the file `Notes/a.md`. -/
def vaultA : Vault :=
  { entries := [⟨"Done", EntryKind.folder, 1⟩, ⟨"Notes/a.md", EntryKind.file, 2⟩], nextId := 10 }

/-- `vaultA` with an unrelated file already at `Done/a.md`. -/
def vaultConflict : Vault :=
  { entries := [⟨"Done", EntryKind.folder, 1⟩, ⟨"Done/a.md", EntryKind.file, 7⟩,
                ⟨"Notes/a.md", EntryKind.file, 2⟩], nextId := 10 }

/-- Collaborators: no metadata anywhere, primitives succeed. -/
def envNone : Env :=
  { metadata := fun _ => none, regex := engNone,
    renameFails := fun _ _ => false, createFolderFails := fun _ => false }

/-- Collaborators: every file carries `cacheA`, primitives succeed. -/
def envMeta : Env :=
  { metadata := fun _ => some cacheA, regex := engNone,
    renameFails := fun _ _ => false, createFolderFails := fun _ => false }

/-- Collaborators: every file carries `cacheA`, the rename primitive always
raises. -/
def envRenameFails : Env :=
  { metadata := fun _ => some cacheA, regex := engNone,
    renameFails := fun _ _ => true, createFolderFails := fun _ => false }

/-!
Theorems.
-/

/-- A rule that matches is enabled: `fileMatchesRule` returns `false`
immediately on a disabled rule. -/
theorem enabled_of_fileMatchesRule {re : RegexEngine} {cache : Option CachedMetadata}
    {rule : SortingRule} (h : fileMatchesRule re cache rule = true) : rule.enabled = true := by
  cases he : rule.enabled
  · unfold fileMatchesRule at h
    simp [he] at h
  · rfl

/-- C1: for every rule list and metadata snapshot, `findMatchingRule`
returns the rule at the lowest index for which `fileMatchesRule` is true
(a matching rule preceded only by non-matching rules), or `none` exactly
when no rule matches; a returned rule always has `enabled = true`, so a
disabled rule is never returned from any position. -/
theorem C1_findMatchingRule_first (re : RegexEngine) (cache : Option CachedMetadata)
    (rules : List SortingRule) :
    (∀ r, findMatchingRule re cache rules = some r →
      fileMatchesRule re cache r = true ∧ r.enabled = true ∧
      ∃ before after, rules = before ++ r :: after ∧
        ∀ r' ∈ before, fileMatchesRule re cache r' = false) ∧
    (findMatchingRule re cache rules = none ↔
      ∀ r ∈ rules, fileMatchesRule re cache r = false) := by
  constructor
  · intro r hr
    rw [findMatchingRule, List.find?_eq_some] at hr
    obtain ⟨hm, before, after, heq, hall⟩ := hr
    exact ⟨hm, enabled_of_fileMatchesRule hm, before, after, heq,
      fun r' hr' => by simpa using hall r' hr'⟩
  · rw [findMatchingRule, List.find?_eq_none]
    constructor
    · intro h r hr
      simpa using h r hr
    · intro h r hr
      simp [h r hr]

/-- C1 witness: on a concrete two-rule list whose first rule is disabled,
the returned rule matches and is enabled. -/
theorem C1_witness :
    fileMatchesRule engNone (some cacheA) ruleBase = true ∧ ruleBase.enabled = true := by
  have h := (C1_findMatchingRule_first engNone (some cacheA) [ruleDisabled, ruleBase]).1
    ruleBase (by decide)
  exact ⟨h.1, h.2.1⟩

/-- C2 counterexample: a rule with `useTags = true` but `tagValue` unset is
matched through the property map — two snapshots with identical tag sets
give different results, so the result does depend on the property map. -/
theorem C2_counterexample :
    ruleTagsNoValue.useTags = true ∧ ruleTagsNoValue.tagValue = none ∧
    getAllTags cacheA = getAllTags cacheB ∧
    fileMatchesRule engNone (some cacheA) ruleTagsNoValue = true ∧
    fileMatchesRule engNone (some cacheB) ruleTagsNoValue = false := by decide

/-- `matchesTags` reads the snapshot only through `getAllTags`. -/
theorem matchesTags_eq_of_getAllTags_eq (re : RegexEngine) (rule : SortingRule)
    {c1 c2 : CachedMetadata} (h : getAllTags c1 = getAllTags c2) :
    matchesTags re c1 rule = matchesTags re c2 rule := by
  unfold matchesTags
  rw [h]

/-- C2 amended: for a rule with `useTags = true` and a NONEMPTY, SET
`tagValue`, matching compares only against the snapshot's tag set — the
result is unchanged across snapshots with the same tag set and is
independent of the rule's `propertyName`/`propertyValue`. (As stated the
claim fails when `tagValue` is empty or unset: the code then falls through
to property matching, see the counterexample.) -/
theorem C2_tag_rule_uses_only_tags (re : RegexEngine) (rule : SortingRule) (tv : String)
    (c1 c2 : CachedMetadata) (pn pv : String)
    (hu : rule.useTags = true) (ht : rule.tagValue = some tv) (hne : tv ≠ "")
    (htags : getAllTags c1 = getAllTags c2) :
    fileMatchesRule re (some c1) rule = fileMatchesRule re (some c2) rule ∧
    fileMatchesRule re (some c1) { rule with propertyName := pn, propertyValue := pv } =
      fileMatchesRule re (some c1) rule := by
  have hguard : (rule.useTags && optStrTruthy rule.tagValue) = true := by
    rw [hu, ht]
    simpa [optStrTruthy, strTruthy] using hne
  constructor
  · cases he : rule.enabled <;>
      simp [fileMatchesRule, he, hguard, matchesTags_eq_of_getAllTags_eq re rule htags]
  · unfold fileMatchesRule
    rw [hguard]
    rfl

/-- C2 witness: at a concrete tag rule and snapshot, changing the property
fields leaves the result unchanged. -/
theorem C2_witness :
    fileMatchesRule engNone (some cacheTagProject)
        { ruleTagContains with propertyName := "other", propertyValue := "zzz" } =
      fileMatchesRule engNone (some cacheTagProject) ruleTagContains :=
  (C2_tag_rule_uses_only_tags engNone ruleTagContains "Project" cacheTagProject cacheTagProject
    "other" "zzz" rfl rfl (by decide) rfl).2

/-- C3 counterexample: a case-sensitive tag rule `contains "Project"`
matches the tag `#project` even though the case-sensitive substring
comparison of the marker-stripped strings fails — the comparison is
case-folded despite `caseSensitive = true`. -/
theorem C3_counterexample :
    ruleTagContains.useTags = true ∧ ruleTagContains.caseSensitive = true ∧
    ruleTagContains.matchType = MatchType.contains ∧
    getAllTags cacheTagProject = ["#project"] ∧
    strIncludes (stripHash "#project") (stripHash "Project") = false ∧
    fileMatchesRule engNone (some cacheTagProject) ruleTagContains = true := by decide

/-- For a tag rule with a substring match type, `matchesTags` computes the
case-folded comparison over the tag set, whatever `caseSensitive` is. -/
theorem matchesTags_substring_char (re : RegexEngine) (rule : SortingRule) (c : CachedMetadata)
    (hmt : rule.matchType = MatchType.contains ∨ rule.matchType = MatchType.startsWith ∨
      rule.matchType = MatchType.endsWith) :
    matchesTags re c rule =
      (!(getAllTags c).isEmpty &&
        (getAllTags c).any fun tag => foldedTagCompare rule.matchType tag (rule.tagValue.getD "")) := by
  rcases hmt with h | h | h <;>
  · unfold matchesTags foldedTagCompare
    rw [h]
    cases hemp : (getAllTags c).isEmpty <;> simp [hemp]

/-- C3 amended: for every tag rule with match type `contains`,
`startsWith` or `endsWith`, the comparison between the marker-stripped tag
and the marker-stripped `tagValue` is ALWAYS case-folded: the result is
independent of `caseSensitive`, and equals the disjunction of the folded
comparison over the tag set. (As stated the claim fails for
`caseSensitive = true`, see the counterexample.) -/
theorem C3_tag_substring_always_folded (re : RegexEngine) (rule : SortingRule)
    (c : CachedMetadata) (b : Bool)
    (hmt : rule.matchType = MatchType.contains ∨ rule.matchType = MatchType.startsWith ∨
      rule.matchType = MatchType.endsWith) :
    matchesTags re c { rule with caseSensitive := b } = matchesTags re c rule ∧
    matchesTags re c rule =
      (!(getAllTags c).isEmpty &&
        (getAllTags c).any fun tag => foldedTagCompare rule.matchType tag (rule.tagValue.getD "")) := by
  have h2 := matchesTags_substring_char re rule c hmt
  have hmt' : ({ rule with caseSensitive := b } : SortingRule).matchType = MatchType.contains ∨
      ({ rule with caseSensitive := b } : SortingRule).matchType = MatchType.startsWith ∨
      ({ rule with caseSensitive := b } : SortingRule).matchType = MatchType.endsWith := hmt
  have h1 := matchesTags_substring_char re { rule with caseSensitive := b } c hmt'
  exact ⟨h1.trans h2.symm, h2⟩

/-- C3 witness: at the concrete rule and snapshot of the counterexample,
flipping `caseSensitive` does not change the result. -/
theorem C3_witness :
    matchesTags engNone cacheTagProject { ruleTagContains with caseSensitive := false } =
      matchesTags engNone cacheTagProject ruleTagContains :=
  (C3_tag_substring_always_folded engNone ruleTagContains cacheTagProject false
    (Or.inl rfl)).1

/-- C7: for every rule with `matchType = regex` whose operative pattern
(`rulePattern`: the `tagValue` on the tag path, the `propertyValue` on the
property path) is not a valid regular expression, and for every snapshot,
`fileMatchesRule` returns `false`. (No error reaches the caller: the
source catches the `RegExp` constructor's error in both `matchesProperty`
and `matchesTags`, which the embedding reflects by the regex branch
returning `false` when the engine reports the pattern invalid.) -/
theorem C7_invalid_regex_no_match (re : RegexEngine) (cache : Option CachedMetadata)
    (rule : SortingRule) (hmt : rule.matchType = MatchType.regex)
    (hp : re.valid (rulePattern rule) = false) :
    fileMatchesRule re cache rule = false := by
  unfold fileMatchesRule
  cases he : rule.enabled
  · simp
  · cases cache with
    | none => simp
    | some c =>
      by_cases hg : (rule.useTags && optStrTruthy rule.tagValue) = true
      · have hv : re.valid (rule.tagValue.getD "") = false := by
          unfold rulePattern at hp
          rw [hg] at hp
          simpa using hp
        simp only [hg, Bool.not_true, if_true]
        unfold matchesTags
        cases hemp : (getAllTags c).isEmpty
        · simp [hmt, hv, hemp]
        · simp [hemp]
      · simp only [Bool.not_eq_true] at hg
        have hv : re.valid rule.propertyValue = false := by
          unfold rulePattern at hp
          rw [hg] at hp
          simpa using hp
        simp only [hg, Bool.not_true, if_false]
        unfold matchesProperty
        cases hfm : c.frontmatter with
        | none => simp
        | some fm =>
          cases hlk : fm.lookup rule.propertyName with
          | none => simp [hlk]
          | some pv => cases pv <;> simp [hlk, hmt, hv]

/-- C7 witness, covering both paths the claim speaks about: a TAG rule
whose `tagValue` `"("` is malformed while its default `propertyValue` `""`
IS valid on the engine (first conjunct), matched against a snapshot with a
tag; and a property rule whose `propertyValue` `"("` is malformed. -/
theorem C7_witness :
    engParen.valid ruleBadTagRegex.propertyValue = true ∧
    fileMatchesRule engParen (some cacheTagProject) ruleBadTagRegex = false ∧
    fileMatchesRule engNone (some cacheA) ruleBadRegex = false :=
  ⟨rfl,
   C7_invalid_regex_no_match engParen (some cacheTagProject) ruleBadTagRegex rfl (by decide),
   C7_invalid_regex_no_match engNone (some cacheA) ruleBadRegex rfl rfl⟩

/-- C10: with no enabled rule in the supplied list, `sortAllFiles` returns
the zero aggregate immediately: the store is untouched (no move is
attempted, no document is examined) and the progress-callback invocation
list is empty, whatever the (possibly non-empty) collection. -/
theorem C10_no_enabled_rules (env : Env) (v : Vault) (files : List TFile)
    (rules : List SortingRule) (excludedFolders : List String)
    (h : (rules.filter (fun r => r.enabled)).isEmpty = true) :
    sortAllFiles env v files rules excludedFolders = (⟨0, 0, 0⟩, v, []) := by
  simp only [sortAllFiles]
  rw [h]
  rfl

/-- C10 witness: a one-disabled-rule list over a non-empty collection. -/
theorem C10_witness :
    sortAllFiles envNone vaultA [fileA] [ruleDisabled] [] = (⟨0, 0, 0⟩, vaultA, []) :=
  C10_no_enabled_rules envNone vaultA [fileA] [ruleDisabled] [] (by decide)

/-- The `errors` counter of the `sortAllFiles` loop never increments: every
outcome of `moveFileByRule` — the source catches all its errors internally
and returns a boolean — feeds `moved` or `skipped`. -/
theorem sortAllFilesLoop_errors_eq_zero (env : Env) (enabledRules : List SortingRule)
    (excludedFolders : List String) (total : Nat) :
    ∀ (fs : List TFile) (v : Vault) (i : Nat),
      (sortAllFilesLoop env enabledRules excludedFolders total v i fs).1.errors = 0 := by
  intro fs
  induction fs with
  | nil => intro v i; rfl
  | cons f fs ih =>
    intro v i
    rw [sortAllFilesLoop]
    split
    · simp [ih]
    · split
      · simp [ih]
      · rename_i x mr heq
        by_cases hmv : (moveFileByRule env v f mr).1 = MoveOutcome.moved <;> simp [hmv, ih]

/-- C4: the claim describes the intended design, but the code cannot
realize it: `moveFileByRule` catches every raised error of the move/folder
primitives inside its own try/catch and returns `false`, so the
`catch { errors++ }` in `sortAllFiles` is unreachable — the `errors`
counter of every batch result is 0, and a document whose move attempt
fails is counted as `skipped` (second and third conjuncts: a concrete
failing input where the rename primitive raises). -/
theorem C4_failed_move_counted_as_skipped :
    (∀ (env : Env) (v : Vault) (files : List TFile) (rules : List SortingRule)
        (excludedFolders : List String),
      (sortAllFiles env v files rules excludedFolders).1.errors = 0) ∧
    moveFileByRule envRenameFails vaultA fileA ruleBase = (MoveOutcome.failed, vaultA) ∧
    sortAllFiles envRenameFails vaultA [fileA] [ruleBase] [] = (⟨0, 1, 0⟩, vaultA, [(1, 1)]) := by
  refine ⟨?_, by decide, by decide⟩
  intro env v files rules excludedFolders
  simp only [sortAllFiles]
  cases h : (rules.filter (fun r => r.enabled)).isEmpty
  · simp [sortAllFilesLoop_errors_eq_zero]
  · rfl

/-- C5 counterexample: a one-document collection whose document lies in an
excluded folder — the code hits `continue` before the `onProgress` call, so
the callback is never invoked, where the claim demands one invocation. -/
theorem C5_counterexample :
    isFileInExcludedFolder fileInArchive ["Archive"] = true ∧
    sortAllFiles envNone vaultA [fileInArchive] [ruleBase] ["Archive"] =
      (⟨0, 1, 0⟩, vaultA, []) := by decide

/-- The progress-invocation list of the `sortAllFiles` loop: one entry
`(index + 1, total)` per non-excluded document, in order; excluded
documents contribute none. -/
theorem sortAllFilesLoop_log (env : Env) (enabledRules : List SortingRule)
    (excludedFolders : List String) (total : Nat) :
    ∀ (fs : List TFile) (v : Vault) (i : Nat),
      (sortAllFilesLoop env enabledRules excludedFolders total v i fs).2.2 =
        (List.enumFrom i fs).filterMap (fun p =>
          if isFileInExcludedFolder p.2 excludedFolders then none
          else some (p.1 + 1, total)) := by
  intro fs
  induction fs with
  | nil => intro v i; rfl
  | cons f fs ih =>
    intro v i
    rw [sortAllFilesLoop]
    split
    · simp_all
    · cases findMatchingRule env.regex (env.metadata f.id) enabledRules with
      | none => simp_all
      | some matchingRule => split <;> simp_all

/-- C5 amended: when some rule is enabled, the progress callback is invoked
exactly once after each NON-EXCLUDED document, with arguments
(1-based index of the document in the collection, total collection size),
in collection order; a document skipped because its path is excluded
produces NO invocation (the source's `continue` bypasses the callback), so
for it the count argument is simply never reported. -/
theorem C5_progress_per_non_excluded (env : Env) (v : Vault) (files : List TFile)
    (rules : List SortingRule) (excludedFolders : List String)
    (h : (rules.filter (fun r => r.enabled)).isEmpty = false) :
    (sortAllFiles env v files rules excludedFolders).2.2 =
      files.enum.filterMap (fun p =>
        if isFileInExcludedFolder p.2 excludedFolders then none
        else some (p.1 + 1, files.length)) := by
  simp only [sortAllFiles]
  rw [h]
  simp [sortAllFilesLoop_log, List.enum]

/-- C5 witness: on a concrete non-excluded one-document collection the log
is the single invocation `(1, 1)`. -/
theorem C5_witness :
    (sortAllFiles envNone vaultA [fileA] [ruleBase] []).2.2 =
      (List.enum [fileA]).filterMap (fun p =>
        if isFileInExcludedFolder p.2 [] then none
        else some (p.1 + 1, [fileA].length)) :=
  C5_progress_per_non_excluded envNone vaultA [fileA] [ruleBase] [] (by decide)

/-- C6: for excluded entries that are already in normal form (the code
normalizes each entry before comparing, so an entry is used exactly as its
normalized self), a file path is excluded if and only if it equals an entry
or starts with an entry followed by the separator `/`. The concrete
`Archive`/`Archive2` instances of the claim are checked in the witness. -/
theorem C6_exclusion_segment_aligned (file : TFile) (excludedFolders : List String)
    (hn : ∀ e ∈ excludedFolders, normalizePath e = e) :
    isFileInExcludedFolder file excludedFolders = true ↔
      ∃ e, e ∈ excludedFolders ∧ (file.path = e ∨ jsStartsWith file.path (e ++ "/") = true) := by
  unfold isFileInExcludedFolder
  cases hemp : excludedFolders.isEmpty
  · simp only [Bool.false_eq_true, if_false, List.any_eq_true]
    constructor
    · rintro ⟨e, he, hp⟩
      simp only [hn e he, Bool.or_eq_true, beq_iff_eq] at hp
      exact ⟨e, he, hp.symm⟩
    · rintro ⟨e, he, hor⟩
      refine ⟨e, he, ?_⟩
      simp only [hn e he, Bool.or_eq_true, beq_iff_eq]
      exact hor.symm
  · have : excludedFolders = [] := List.isEmpty_iff.mp hemp
    subst this
    simp

/-- C6 witness: `Archive/note.md` is excluded by the entry `Archive`,
`Archive2/note.md` is not. -/
theorem C6_witness :
    isFileInExcludedFolder fileInArchive ["Archive"] = true ∧
    isFileInExcludedFolder fileInArchive2 ["Archive"] = false := by
  have hiff1 := C6_exclusion_segment_aligned fileInArchive ["Archive"] (by decide)
  have hiff2 := C6_exclusion_segment_aligned fileInArchive2 ["Archive"] (by decide)
  constructor
  · exact hiff1.mpr ⟨"Archive", by decide, Or.inr (by decide)⟩
  · cases hb : isFileInExcludedFolder fileInArchive2 ["Archive"]
    · rfl
    · exfalso
      obtain ⟨e, he, hor⟩ := hiff2.mp hb
      have he' : e = "Archive" := List.mem_singleton.mp he
      subst he'
      rcases hor with h | h
      · exact absurd h (by decide)
      · exact absurd h (by decide)

/-- C8: when the computed destination file path differs from the file's
current path, the destination folder exists (or is the root) and an entity
with a different identity occupies the destination path, `moveFileByRule`
returns the conflict outcome and the store is returned exactly unchanged —
for EVERY behaviour of the rename primitive, i.e. the primitive is not
invoked. -/
theorem C8_conflict_refused (env : Env) (v : Vault) (file : TFile) (rule : SortingRule)
    (ex : VaultEntry)
    (hfold : normalizePath (resolveDestination env file rule) = "" ∨
      ∃ ef, v.entries.find? (fun e => e.path == normalizePath (resolveDestination env file rule)) =
          some ef ∧ ef.kind = EntryKind.folder)
    (hne : file.path ≠ newPathOf env file rule)
    (hex : v.entries.find? (fun e => e.path == newPathOf env file rule) = some ex)
    (hid : ex.id ≠ file.id) :
    moveFileByRule env v file rule = (MoveOutcome.conflict, v) := by
  have hens : ensureFolderExists env v (resolveDestination env file rule) = Except.ok v := by
    simp only [ensureFolderExists]
    rcases hfold with h | ⟨ef, hef, hk⟩
    · rw [h]
      rfl
    · cases hc : (normalizePath (resolveDestination env file rule) == "" ||
          normalizePath (resolveDestination env file rule) == "/")
      · simp [hef, hk]
      · rfl
  have hne' : (file.path == newPathOf env file rule) = false := by
    simpa using hne
  have hid' : (ex.id != file.id) = true := by
    simpa using hid
  simp only [moveFileByRule]
  rw [hens]
  simp [hne', hex, hid']

/-- C8 witness: the spec's concrete conflict scenario — file at
`Notes/a.md`, rule destination `Done`, an unrelated file already at
`Done/a.md`. -/
theorem C8_witness :
    moveFileByRule envMeta vaultConflict fileA ruleBase = (MoveOutcome.conflict, vaultConflict) :=
  C8_conflict_refused envMeta vaultConflict fileA ruleBase ⟨"Done/a.md", EntryKind.file, 7⟩
    (Or.inr ⟨⟨"Done", EntryKind.folder, 1⟩, by decide, by decide⟩)
    (by decide) (by decide) (by decide)

/-- Counter sum of the `sortAllFiles` loop: one counter increment per
processed document. -/
theorem sortAllFilesLoop_counter_sum (env : Env) (enabledRules : List SortingRule)
    (excludedFolders : List String) (total : Nat) :
    ∀ (fs : List TFile) (v : Vault) (i : Nat),
      (sortAllFilesLoop env enabledRules excludedFolders total v i fs).1.moved +
        (sortAllFilesLoop env enabledRules excludedFolders total v i fs).1.skipped +
        (sortAllFilesLoop env enabledRules excludedFolders total v i fs).1.errors = fs.length := by
  intro fs
  induction fs with
  | nil => intro v i; rfl
  | cons f fs ih =>
    intro v i
    rw [sortAllFilesLoop]
    split
    · have h1 := ih v (i + 1)
      simp only [List.length_cons]
      omega
    · split
      · have h1 := ih v (i + 1)
        simp only [List.length_cons]
        omega
      · rename_i x mr heq
        have h1 := ih (moveFileByRule env v f mr).2 (i + 1)
        by_cases hmv : (moveFileByRule env v f mr).1 = MoveOutcome.moved
        · simp [hmv]
          omega
        · simp [hmv]
          omega

/-- Counter sum of the `sortFolder` loop: one counter increment per
markdown-file child considered, recursively when `recursive` is set. -/
theorem sortFolderLoop_counter_sum (env : Env) (recursive : Bool) (rules : List SortingRule) :
    ∀ (v : Vault) (cs : List TAbstract),
      (sortFolderLoop env recursive rules v cs).1.moved +
        (sortFolderLoop env recursive rules v cs).1.skipped +
        (sortFolderLoop env recursive rules v cs).1.errors = countMdFiles recursive cs := by
  intro v cs
  induction v, cs using sortFolderLoop.induct env recursive rules with
  | case1 v =>
    rw [sortFolderLoop, countMdFiles]
    rfl
  | case2 v child extension cs hmd hfind ih =>
    rw [sortFolderLoop, countMdFiles]
    simp [hmd, hfind]
    omega
  | case3 v child extension cs hmd mr hfind mv ih =>
    have hmveq : mv = moveFileByRule env v child mr := rfl
    rw [hmveq] at ih
    rw [sortFolderLoop, countMdFiles]
    by_cases hmv : (moveFileByRule env v child mr).1 = MoveOutcome.moved
    · simp [hmd, hfind, hmv]
      omega
    · simp [hmd, hfind, hmv]
      omega
  | case4 v child extension cs hmd ih =>
    rw [sortFolderLoop, countMdFiles]
    simp only [Bool.not_eq_true] at hmd
    simp [hmd, ih]
  | case5 v grandchildren cs hrec sub ih1 ih2 =>
    have hsubeq : sub = sortFolderLoop env recursive rules v grandchildren := rfl
    rw [hsubeq] at ih2
    subst hrec
    rw [sortFolderLoop, countMdFiles]
    simp
    omega
  | case6 v grandchildren cs hrec ih =>
    simp only [Bool.not_eq_true] at hrec
    subst hrec
    rw [sortFolderLoop, countMdFiles]
    simp [ih]

/-- C9: for every batch call the returned aggregate satisfies
`moved + skipped + errors = number of documents considered`: for
`sortAllFiles` every document of the collection when some rule is enabled
and zero documents otherwise (the call returns before examining any); for
`sortFolder` the markdown-file children, recursively when `recursive`. -/
theorem C9_batch_aggregate (env : Env) (v : Vault) (files : List TFile)
    (rules : List SortingRule) (excludedFolders : List String)
    (children : List TAbstract) (recursive : Bool) :
    ((sortAllFiles env v files rules excludedFolders).1.moved +
      (sortAllFiles env v files rules excludedFolders).1.skipped +
      (sortAllFiles env v files rules excludedFolders).1.errors =
      if (rules.filter (fun r => r.enabled)).isEmpty then 0 else files.length) ∧
    ((sortFolder env v children rules recursive).1.moved +
      (sortFolder env v children rules recursive).1.skipped +
      (sortFolder env v children rules recursive).1.errors = countMdFiles recursive children) := by
  constructor
  · simp only [sortAllFiles]
    cases h : (rules.filter (fun r => r.enabled)).isEmpty
    · simp [sortAllFilesLoop_counter_sum]
    · rfl
  · exact sortFolderLoop_counter_sum env recursive rules v children

/-- C9 witness: both aggregates at a concrete call. -/
theorem C9_witness :
    ((sortAllFiles envMeta vaultA [fileA] [ruleBase] []).1.moved +
      (sortAllFiles envMeta vaultA [fileA] [ruleBase] []).1.skipped +
      (sortAllFiles envMeta vaultA [fileA] [ruleBase] []).1.errors =
      if (List.filter (fun r => r.enabled) [ruleBase]).isEmpty then 0 else [fileA].length) ∧
    ((sortFolder envMeta vaultA [TAbstract.afile fileA "md"] [ruleBase] false).1.moved +
      (sortFolder envMeta vaultA [TAbstract.afile fileA "md"] [ruleBase] false).1.skipped +
      (sortFolder envMeta vaultA [TAbstract.afile fileA "md"] [ruleBase] false).1.errors =
      countMdFiles false [TAbstract.afile fileA "md"]) :=
  C9_batch_aggregate envMeta vaultA [fileA] [ruleBase] [] [TAbstract.afile fileA "md"] false

end SmartFileSorter
